import Mathlib

/-!
Shallow embedding of the `MLService` classifier service (TFLite wrapper):
the static methods `loadModel` and `classifyImage`, the fixed label table,
the argmax/confidence loop, and the resource/trace structure of a call.

External collaborators (the TFLite runtime, the image decoder, `fetch`,
the TFJS tensor ops) are modelled as oracles in an `Env` record; the
preprocessing pipeline is embedded symbolically as a tensor expression so
that the constants (224, 224, batch axis 0, `/ 127.5`, `- 1`) and the
order of operations are visible to theorems.
-/

namespace AgriGasha

/-- Classification result: `{label, confidence}` as returned by
`classifyImage`. Confidence is an integer (result of `Math.round`). -/
structure ClassRes where
  label : String
  confidence : ℤ
deriving DecidableEq, Repr

/-- Error kinds that `loadModel` can throw: the TFLite library missing
from `window` after the one retry wait, a failed model fetch, or a
failure of `loadTFLiteModel` itself. -/
inductive LoadError where
  | runtimeUnavailable
  | fetchFailed
  | loadFailed
deriving DecidableEq, Repr

/-- Symbolic tensor expressions, mirroring the TFJS calls made inside
`tf.tidy` in `classifyImage`: `fromPixels`, `resizeBilinear`,
`expandDims`, `toFloat`, division by a scalar, subtraction of a scalar. -/
inductive TensorExpr where
  | fromPixels (imgH imgW imgC : ℕ)
  | resizeBilinear (t : TensorExpr) (h w : ℕ)
  | expandDims (t : TensorExpr) (axis : ℕ)
  | toFloat (t : TensorExpr)
  | divC (t : TensorExpr) (c : ℚ)
  | subC (t : TensorExpr) (c : ℚ)
deriving DecidableEq, Repr

/-- Shape of a symbolic tensor expression: `fromPixels` yields `[H, W, C]`,
`resizeBilinear` replaces the two spatial dimensions, `expandDims` inserts
a dimension of size 1 at the given axis, the pointwise operations keep the
shape. -/
def TensorExpr.shape : TensorExpr → List ℕ
  | .fromPixels h w c => [h, w, c]
  | .resizeBilinear t h w =>
      match t.shape with
      | _ :: _ :: rest => h :: w :: rest
      | s => s
  | .expandDims t a => t.shape.insertIdx a 1
  | .toFloat t => t.shape
  | .divC t _ => t.shape
  | .subC t _ => t.shape

/-- Composition of the pointwise numeric operations (`toFloat`, `div`,
`sub`) applied on top of a tensor expression, read as a function on a
single element. -/
def TensorExpr.pointOp : TensorExpr → ℚ → ℚ
  | .divC t c => fun v => TensorExpr.pointOp t v / c
  | .subC t c => fun v => TensorExpr.pointOp t v - c
  | .toFloat t => TensorExpr.pointOp t
  | _ => id

/-- Environment of external oracles for one call: availability of the
TFLite library now and after the 500 ms retry wait, success of the model
fetch and of `loadTFLiteModel`, the handle value the runtime would
produce, success of the image decode and the decoded image dimensions,
availability of `window.tf`, and the outcome of `predict` followed by
`data()` (an output vector, or a thrown error). -/
structure Env where
  tfliteNow : Bool
  tfliteAfterWait : Bool
  fetchOk : Bool
  loadOk : Bool
  handleVal : ℕ
  decodeOk : Bool
  imgH : ℕ
  imgW : ℕ
  imgC : ℕ
  tfOk : Bool
  predict : TensorExpr → Except Unit (List ℚ)

/-- Boolean discriminator for `Except`. -/
def exOk {ε α : Type} : Except ε α → Bool
  | .ok _ => true
  | .error _ => false

/-- Trace of one `loadModel` call: its outcome (the handle, or a thrown
error), the cached-model state after the call, how many times `fetch` was
invoked, and how many times a freshly constructed handle was stored into
the cache. -/
structure LoadTrace where
  out : Except LoadError ℕ
  state : Option ℕ
  fetches : ℕ
  stores : ℕ

/-- Embedding of `MLService.loadModel`: if the cached handle is populated
it is returned immediately (no fetch, no store); otherwise the TFLite
library is checked, once more after the retry wait, and the call throws
`runtimeUnavailable` if it is still missing; then the model artifact is
fetched (`fetchFailed` on a non-ok response), handed to
`loadTFLiteModel` (`loadFailed` if that throws), and the resulting handle
is stored and returned. -/
def loadModel (env : Env) (st : Option ℕ) : LoadTrace :=
  match st with
  | some m => ⟨.ok m, some m, 0, 0⟩
  | none =>
      if env.tfliteNow || env.tfliteAfterWait then
        if env.fetchOk then
          if env.loadOk then ⟨.ok env.handleVal, some env.handleVal, 1, 1⟩
          else ⟨.error .loadFailed, none, 1, 0⟩
        else ⟨.error .fetchFailed, none, 1, 0⟩
      else ⟨.error .runtimeUnavailable, none, 0, 0⟩

/-- The fixed label table of `MLService`. -/
def labels : List String := ["Coffee Rust", "Maize Streak", "Wheat Rust", "Healthy"]

/-- The safe fallback result returned from the `catch` block of
`classifyImage`. -/
def fallbackResult : ClassRes := ⟨"Healthy", 0⟩

/-- `Math.round` on a rational: rounds half toward positive infinity. -/
def jsRound (q : ℚ) : ℤ := ⌊q + 1 / 2⌋

/-- The argmax loop of `classifyImage`: scans the output vector carrying
`(maxProb, maxIndex)`, updating both whenever the current element is
strictly greater than `maxProb`. Entered with `maxProb = 0`,
`maxIndex = 0`, position `0`. -/
def scanMax : List ℚ → ℚ → ℕ → ℕ → ℚ × ℕ
  | [], mp, mi, _ => (mp, mi)
  | p :: rest, mp, mi, i =>
      if mp < p then scanMax rest p i (i + 1) else scanMax rest mp mi (i + 1)

/-- The tensor built inside `tf.tidy`:
`fromPixels(img).resizeBilinear([224,224]).expandDims(0).toFloat().div(127.5).sub(1)`. -/
def inputExpr (env : Env) : TensorExpr :=
  .subC (.divC (.toFloat (.expandDims
    (.resizeBilinear (.fromPixels env.imgH env.imgW env.imgC) 224 224) 0)) (127.5 : ℚ)) 1

/-- Trace of one `classifyImage` call: the result handed to the caller,
the cached-model state afterwards, fetch/store counts from the embedded
load step, how many input tensors were allocated and released
(`tensor.dispose()` in the `finally` block), how many forward passes were
run, and the tensor expression `predict` was invoked on, if any. -/
structure ClassifyTrace where
  result : ClassRes
  state : Option ℕ
  fetches : ℕ
  stores : ℕ
  allocs : ℕ
  releases : ℕ
  predicts : ℕ
  predictedOn : Option TensorExpr

/-- Embedding of `MLService.classifyImage`: loads the model if the cache
is empty (a load failure is caught and yields the fallback), decodes the
image (failure caught), checks `window.tf` (missing caught), builds the
input tensor, runs `predict` + `data()` inside a `try` whose `finally`
disposes the tensor (a throw is caught and yields the fallback), then
runs the argmax loop and maps `maxIndex % labels.length` into the label
table, returning `{label, Math.round(maxProb * 100)}`. -/
def classifyImage (env : Env) (st : Option ℕ) : ClassifyTrace :=
  let load : LoadTrace :=
    match st with
    | some m => ⟨.ok m, some m, 0, 0⟩
    | none => loadModel env none
  match load.out with
  | .error _ => ⟨fallbackResult, load.state, load.fetches, load.stores, 0, 0, 0, none⟩
  | .ok _ =>
      if env.decodeOk = false then
        ⟨fallbackResult, load.state, load.fetches, load.stores, 0, 0, 0, none⟩
      else if env.tfOk = false then
        ⟨fallbackResult, load.state, load.fetches, load.stores, 0, 0, 0, none⟩
      else
        let tensor := inputExpr env
        match env.predict tensor with
        | .error _ =>
            ⟨fallbackResult, load.state, load.fetches, load.stores, 1, 1, 1, some tensor⟩
        | .ok probs =>
            let mr := scanMax probs 0 0 0
            let label := labels.getD (mr.2 % labels.length) "undefined"
            ⟨⟨label, jsRound (mr.1 * 100)⟩, load.state, load.fetches, load.stores,
              1, 1, 1, some tensor⟩

/-- Proposition: some step of the classification pipeline fails in this
environment from this state — the load step (only attempted when the
cache is empty), the image decode, the `window.tf` check, or the forward
pass. -/
def pipelineFails (env : Env) (st : Option ℕ) : Prop :=
  (st = none ∧ exOk (loadModel env none).out = false) ∨
    env.decodeOk = false ∨ env.tfOk = false ∨
    exOk (env.predict (inputExpr env)) = false

/-- Boolean: the load step, the decode and the `window.tf` check all
succeed, so the call reaches the forward pass. -/
def reachesPredict (env : Env) (st : Option ℕ) : Bool :=
  (match st with
   | some _ => true
   | none => exOk (loadModel env none).out) && env.decodeOk && env.tfOk

/-- The true maximum of a vector (spec side): maximum of a nonempty list,
0 for the empty list. -/
def listMax : List ℚ → ℚ
  | [] => 0
  | x :: xs => xs.foldl max x

/-- Index of the first occurrence of a value in a list (0 past the end if
the value is absent). -/
def firstIdxOf (m : ℚ) : List ℚ → ℕ
  | [] => 0
  | x :: xs => if x = m then 0 else firstIdxOf m xs + 1

/-- First-occurrence argmax of a vector (spec side): the least index at
which the maximum occurs, ties resolved to the lowest index; 0 for the
empty list. -/
def firstArgmax : List ℚ → ℕ
  | [] => 0
  | x :: xs => firstIdxOf (xs.foldl max x) (x :: xs)

/-- The pixel normalization map named by the spec: `(value / 127.5) - 1`. -/
def normalizePixel (v : ℚ) : ℚ := v / (127.5 : ℚ) - 1

/-- Boolean: every oracle in the environment succeeds, so a call performs
the full pipeline. -/
def envFunctional (e : Env) : Bool :=
  (e.tfliteNow || e.tfliteAfterWait) && e.fetchOk && e.loadOk && e.decodeOk && e.tfOk

/-- Total number of `tensor.dispose()` calls over a sequence of
`classifyImage` calls, threading the cached-model state. -/
def totalReleases : List Env → Option ℕ → ℕ
  | [], _ => 0
  | e :: rest, st => (classifyImage e st).releases + totalReleases rest (classifyImage e st).state

/-! Helper lemmas about `List.foldl max` and the argmax scan. -/

lemma le_foldlMax (l : List ℚ) (mp : ℚ) : mp ≤ l.foldl max mp := by
  induction l generalizing mp with
  | nil => exact le_refl mp
  | cons x xs ih => exact le_trans (le_max_left mp x) (ih (max mp x))

lemma mem_le_foldlMax (l : List ℚ) : ∀ mp : ℚ, ∀ y ∈ l, y ≤ l.foldl max mp := by
  induction l with
  | nil => intro mp y hy; cases hy
  | cons x xs ih =>
    intro mp y hy
    rcases List.mem_cons.mp hy with h | h
    · subst h
      exact le_trans (le_max_right mp y) (le_foldlMax xs (max mp y))
    · exact ih (max mp x) y h

lemma foldlMax_le {c : ℚ} (l : List ℚ) :
    ∀ mp : ℚ, mp ≤ c → (∀ y ∈ l, y ≤ c) → l.foldl max mp ≤ c := by
  induction l with
  | nil => intro mp h _; exact h
  | cons x xs ih =>
    intro mp hmp hall
    exact ih (max mp x) (max_le hmp (hall x (List.mem_cons_self x xs)))
      (fun y hy => hall y (List.mem_cons_of_mem x hy))

lemma scanMax_of_le (l : List ℚ) :
    ∀ (mp : ℚ) (mi i : ℕ), (∀ y ∈ l, y ≤ mp) → scanMax l mp mi i = (mp, mi) := by
  induction l with
  | nil => intro mp mi i _; rfl
  | cons x xs ih =>
    intro mp mi i hall
    have hx : ¬ mp < x := not_lt.mpr (hall x (List.mem_cons_self x xs))
    simp only [scanMax, if_neg hx]
    exact ih mp mi (i + 1) (fun y hy => hall y (List.mem_cons_of_mem x hy))

lemma scanMax_fst (l : List ℚ) :
    ∀ (mp : ℚ) (mi i : ℕ), (scanMax l mp mi i).1 = l.foldl max mp := by
  induction l with
  | nil => intro mp mi i; rfl
  | cons x xs ih =>
    intro mp mi i
    by_cases h : mp < x
    · simp only [scanMax, if_pos h, List.foldl_cons]
      rw [max_eq_right h.le]
      exact ih x i (i + 1)
    · simp only [scanMax, if_neg h, List.foldl_cons]
      rw [max_eq_left (not_lt.mp h)]
      exact ih mp mi (i + 1)

lemma scanMax_spec (l : List ℚ) :
    ∀ (mp : ℚ) (mi i : ℕ), mp < l.foldl max mp →
      scanMax l mp mi i = (l.foldl max mp, i + firstIdxOf (l.foldl max mp) l) := by
  induction l with
  | nil => intro mp mi i h; exact absurd h (lt_irrefl mp)
  | cons x xs ih =>
    intro mp mi i h
    have hfold : (x :: xs).foldl max mp = xs.foldl max (max mp x) := rfl
    by_cases hx : mp < x
    · have hmx : max mp x = x := max_eq_right hx.le
      by_cases hM : x < xs.foldl max x
      · have ihx := ih x i (i + 1) hM
        simp only [scanMax, if_pos hx]
        rw [ihx, hfold, hmx]
        have hne : x ≠ xs.foldl max x := ne_of_lt hM
        simp only [firstIdxOf, if_neg hne, Prod.mk.injEq, true_and]
        omega
      · have hxx : xs.foldl max x = x := le_antisymm (not_lt.mp hM) (le_foldlMax xs x)
        have hall : ∀ y ∈ xs, y ≤ x := fun y hy => hxx ▸ mem_le_foldlMax xs x y hy
        simp only [scanMax, if_pos hx]
        rw [scanMax_of_le xs x i (i + 1) hall, hfold, hmx, hxx]
        simp [firstIdxOf]
    · have hmx : max mp x = mp := max_eq_left (not_lt.mp hx)
      have h2 : mp < xs.foldl max mp := by rw [hfold, hmx] at h; exact h
      have ihm := ih mp mi (i + 1) h2
      simp only [scanMax, if_neg hx]
      rw [ihm, hfold, hmx]
      have hne : x ≠ xs.foldl max mp := ne_of_lt (lt_of_le_of_lt (not_lt.mp hx) h2)
      simp only [firstIdxOf, if_neg hne, Prod.mk.injEq, true_and]
      omega

/-! Branch characterizations of `loadModel` and `classifyImage`. -/

lemma loadModel_some (env : Env) (m : ℕ) : loadModel env (some m) = ⟨.ok m, some m, 0, 0⟩ := rfl

lemma loadModel_none_cases (env : Env) :
    loadModel env none = ⟨.ok env.handleVal, some env.handleVal, 1, 1⟩ ∨
      ((loadModel env none).state = none ∧ (loadModel env none).stores = 0 ∧
        ∃ e, (loadModel env none).out = .error e) := by
  unfold loadModel
  by_cases h1 : (env.tfliteNow || env.tfliteAfterWait) = true
  · by_cases h2 : env.fetchOk = true
    · by_cases h3 : env.loadOk = true
      · left; simp [h1, h2, h3]
      · right; simp [h1, h2, h3]
    · right; simp [h1, h2]
  · right; simp [h1]

lemma classify_load_step (env : Env) (st : Option ℕ) :
    classifyImage env st =
      (let load := loadModel env st
      match load.out with
      | .error _ => ⟨fallbackResult, load.state, load.fetches, load.stores, 0, 0, 0, none⟩
      | .ok _ =>
          if env.decodeOk = false then
            ⟨fallbackResult, load.state, load.fetches, load.stores, 0, 0, 0, none⟩
          else if env.tfOk = false then
            ⟨fallbackResult, load.state, load.fetches, load.stores, 0, 0, 0, none⟩
          else
            let tensor := inputExpr env
            match env.predict tensor with
            | .error _ =>
                ⟨fallbackResult, load.state, load.fetches, load.stores, 1, 1, 1, some tensor⟩
            | .ok probs =>
                let mr := scanMax probs 0 0 0
                let label := labels.getD (mr.2 % labels.length) "undefined"
                ⟨⟨label, jsRound (mr.1 * 100)⟩, load.state, load.fetches, load.stores,
                  1, 1, 1, some tensor⟩) := by
  cases st <;> rfl

lemma classify_of_load_error (env : Env) (st : Option ℕ) (e : LoadError)
    (h : (loadModel env st).out = .error e) :
    classifyImage env st =
      ⟨fallbackResult, (loadModel env st).state, (loadModel env st).fetches,
        (loadModel env st).stores, 0, 0, 0, none⟩ := by
  rw [classify_load_step]
  simp only [h]

lemma classify_of_decode_false (env : Env) (st : Option ℕ) (m : ℕ)
    (hl : (loadModel env st).out = .ok m) (hd : env.decodeOk = false) :
    classifyImage env st =
      ⟨fallbackResult, (loadModel env st).state, (loadModel env st).fetches,
        (loadModel env st).stores, 0, 0, 0, none⟩ := by
  rw [classify_load_step]
  simp only [hl, hd]
  simp

lemma classify_of_tf_false (env : Env) (st : Option ℕ) (m : ℕ)
    (hl : (loadModel env st).out = .ok m) (hd : env.decodeOk = true) (ht : env.tfOk = false) :
    classifyImage env st =
      ⟨fallbackResult, (loadModel env st).state, (loadModel env st).fetches,
        (loadModel env st).stores, 0, 0, 0, none⟩ := by
  rw [classify_load_step]
  simp only [hl, hd, ht]
  simp

lemma classify_of_predict_error (env : Env) (st : Option ℕ) (m : ℕ)
    (hl : (loadModel env st).out = .ok m) (hd : env.decodeOk = true) (ht : env.tfOk = true)
    (hp : env.predict (inputExpr env) = .error ()) :
    classifyImage env st =
      ⟨fallbackResult, (loadModel env st).state, (loadModel env st).fetches,
        (loadModel env st).stores, 1, 1, 1, some (inputExpr env)⟩ := by
  rw [classify_load_step]
  simp only [hl, hd, ht, hp]
  simp

lemma classify_of_predict_ok (env : Env) (st : Option ℕ) (m : ℕ) (v : List ℚ)
    (hl : (loadModel env st).out = .ok m) (hd : env.decodeOk = true) (ht : env.tfOk = true)
    (hp : env.predict (inputExpr env) = .ok v) :
    classifyImage env st =
      ⟨⟨labels.getD ((scanMax v 0 0 0).2 % labels.length) "undefined",
          jsRound ((scanMax v 0 0 0).1 * 100)⟩,
        (loadModel env st).state, (loadModel env st).fetches,
        (loadModel env st).stores, 1, 1, 1, some (inputExpr env)⟩ := by
  rw [classify_load_step]
  simp only [hl, hd, ht, hp]
  simp

/-! Per-call trace facts. -/

lemma classify_some_trace (env : Env) (m : ℕ) :
    (classifyImage env (some m)).state = some m ∧
      (classifyImage env (some m)).fetches = 0 ∧ (classifyImage env (some m)).stores = 0 := by
  have hl : (loadModel env (some m)).out = .ok m := rfl
  cases hd : env.decodeOk with
  | false =>
      rw [classify_of_decode_false env (some m) m hl hd]
      exact ⟨rfl, rfl, rfl⟩
  | true =>
      cases ht : env.tfOk with
      | false =>
          rw [classify_of_tf_false env (some m) m hl hd ht]
          exact ⟨rfl, rfl, rfl⟩
      | true =>
          rcases hq : env.predict (inputExpr env) with u | v
          · cases u
            rw [classify_of_predict_error env (some m) m hl hd ht hq]
            exact ⟨rfl, rfl, rfl⟩
          · rw [classify_of_predict_ok env (some m) m v hl hd ht hq]
            exact ⟨rfl, rfl, rfl⟩

lemma classify_none_trace (env : Env) :
    (classifyImage env none).state = (loadModel env none).state ∧
      (classifyImage env none).fetches = (loadModel env none).fetches ∧
      (classifyImage env none).stores = (loadModel env none).stores := by
  rcases he : (loadModel env none).out with e | m
  · rw [classify_of_load_error env none e he]
    exact ⟨rfl, rfl, rfl⟩
  · cases hd : env.decodeOk with
    | false =>
        rw [classify_of_decode_false env none m he hd]
        exact ⟨rfl, rfl, rfl⟩
    | true =>
        cases ht : env.tfOk with
        | false =>
            rw [classify_of_tf_false env none m he hd ht]
            exact ⟨rfl, rfl, rfl⟩
        | true =>
            rcases hq : env.predict (inputExpr env) with u | v
            · cases u
              rw [classify_of_predict_error env none m he hd ht hq]
              exact ⟨rfl, rfl, rfl⟩
            · rw [classify_of_predict_ok env none m v he hd ht hq]
              exact ⟨rfl, rfl, rfl⟩

lemma classify_alloc_eq_release (env : Env) (st : Option ℕ) :
    (classifyImage env st).releases = (classifyImage env st).allocs ∧
      (classifyImage env st).allocs ≤ 1 := by
  rcases he : (loadModel env st).out with e | m
  · rw [classify_of_load_error env st e he]
    exact ⟨rfl, by norm_num⟩
  · cases hd : env.decodeOk with
    | false =>
        rw [classify_of_decode_false env st m he hd]
        exact ⟨rfl, by norm_num⟩
    | true =>
        cases ht : env.tfOk with
        | false =>
            rw [classify_of_tf_false env st m he hd ht]
            exact ⟨rfl, by norm_num⟩
        | true =>
            rcases hq : env.predict (inputExpr env) with u | v
            · cases u
              rw [classify_of_predict_error env st m he hd ht hq]
              exact ⟨rfl, le_refl 1⟩
            · rw [classify_of_predict_ok env st m v he hd ht hq]
              exact ⟨rfl, le_refl 1⟩

lemma loadModel_none_ok (env : Env) (h1 : (env.tfliteNow || env.tfliteAfterWait) = true)
    (h2 : env.fetchOk = true) (h3 : env.loadOk = true) :
    loadModel env none = ⟨.ok env.handleVal, some env.handleVal, 1, 1⟩ := by
  unfold loadModel
  simp [h1, h2, h3]

lemma classify_functional_releases (env : Env) (h : envFunctional env = true) :
    ∀ st : Option ℕ, (classifyImage env st).releases = 1 := by
  have hcomp : (env.tfliteNow || env.tfliteAfterWait) = true ∧ env.fetchOk = true ∧
      env.loadOk = true ∧ env.decodeOk = true ∧ env.tfOk = true := by
    unfold envFunctional at h
    simp only [Bool.and_eq_true] at h
    exact ⟨h.1.1.1.1, h.1.1.1.2, h.1.1.2, h.1.2, h.2⟩
  obtain ⟨h1, h2, h3, hd, ht⟩ := hcomp
  intro st
  have hl : ∃ m, (loadModel env st).out = .ok m := by
    cases st with
    | some m => exact ⟨m, rfl⟩
    | none => exact ⟨env.handleVal, by rw [loadModel_none_ok env h1 h2 h3]⟩
  obtain ⟨m, hl⟩ := hl
  rcases hq : env.predict (inputExpr env) with u | v
  · cases u
    rw [classify_of_predict_error env st m hl hd ht hq]
  · rw [classify_of_predict_ok env st m v hl hd ht hq]

lemma totalReleases_functional (es : List Env) :
    ∀ st : Option ℕ, (∀ e ∈ es, envFunctional e = true) →
      totalReleases es st = es.length := by
  induction es with
  | nil => intro st _; rfl
  | cons e rest ih =>
      intro st h
      have he : envFunctional e = true := h e (List.mem_cons_self e rest)
      have hrest : ∀ x ∈ rest, envFunctional x = true :=
        fun x hx => h x (List.mem_cons_of_mem e hx)
      simp only [totalReleases, List.length_cons]
      rw [classify_functional_releases e he st, ih _ hrest]
      omega

lemma jsRound_nonneg (q : ℚ) (h : 0 ≤ q) : 0 ≤ jsRound q := by
  unfold jsRound
  rw [Int.le_floor]
  push_cast
  linarith

lemma jsRound_le_hundred (q : ℚ) (h : q ≤ 100) : jsRound q ≤ 100 := by
  unfold jsRound
  have hlt : ⌊q + 1 / 2⌋ < 101 := by
    rw [Int.floor_lt]
    push_cast
    linarith
  omega

lemma getD_mod_mem (i : ℕ) : labels.getD (i % labels.length) "undefined" ∈ labels := by
  rcases (by omega : i % 4 = 0 ∨ i % 4 = 1 ∨ i % 4 = 2 ∨ i % 4 = 3) with h | h | h | h <;>
    · show labels.getD (i % 4) "undefined" ∈ labels
      rw [h]
      decide

lemma classify_label_mem (env : Env) (st : Option ℕ) :
    (classifyImage env st).result.label ∈ labels := by
  rcases he : (loadModel env st).out with e | m
  · rw [classify_of_load_error env st e he]
    show fallbackResult.label ∈ labels
    decide
  · cases hd : env.decodeOk with
    | false =>
        rw [classify_of_decode_false env st m he hd]
        show fallbackResult.label ∈ labels
        decide
    | true =>
        cases ht : env.tfOk with
        | false =>
            rw [classify_of_tf_false env st m he hd ht]
            show fallbackResult.label ∈ labels
            decide
        | true =>
            rcases hq : env.predict (inputExpr env) with u | v
            · cases u
              rw [classify_of_predict_error env st m he hd ht hq]
              show fallbackResult.label ∈ labels
              decide
            · rw [classify_of_predict_ok env st m v he hd ht hq]
              exact getD_mod_mem (scanMax v 0 0 0).2

/-! Concrete environments used by witnesses and counterexamples. -/

/-- Environment whose oracles all succeed and whose forward pass returns
the given output vector. -/
def envVec (v : List ℚ) : Env :=
  ⟨true, true, true, true, 7, true, 5, 6, 3, true, fun _ => .ok v⟩

/-- Environment in which the TFLite library never appears on `window`,
neither at first check nor after the retry wait. -/
def envNoRuntime : Env :=
  ⟨false, false, true, true, 0, true, 5, 6, 3, true, fun _ => .error ()⟩

/-- Environment in which the runtime is present but the model fetch
fails. -/
def envFetchFail : Env :=
  ⟨true, false, false, true, 0, true, 5, 6, 3, true, fun _ => .ok [1]⟩

/-! Claim theorems. -/

/-- C1: `classifyImage` never raises to its caller — the embedding is a
total function — and whenever any step of the pipeline fails (model load
failure, image decode failure, `window.tf` unavailability, or a failing
forward pass), the call returns exactly the safe fallback
`{label: "Healthy", confidence: 0}`. -/
theorem classify_fallback_on_any_failure (env : Env) (st : Option ℕ)
    (h : pipelineFails env st) :
    (classifyImage env st).result = fallbackResult := by
  rcases h with ⟨hst, hl⟩ | hd | ht | hp
  · subst hst
    rcases he : (loadModel env none).out with e | m
    · rw [classify_of_load_error env none e he]
    · rw [he] at hl
      simp [exOk] at hl
  · rcases he : (loadModel env st).out with e | m
    · rw [classify_of_load_error env st e he]
    · rw [classify_of_decode_false env st m he hd]
  · rcases he : (loadModel env st).out with e | m
    · rw [classify_of_load_error env st e he]
    · cases hd : env.decodeOk with
      | false => rw [classify_of_decode_false env st m he hd]
      | true => rw [classify_of_tf_false env st m he hd ht]
  · rcases he : (loadModel env st).out with e | m
    · rw [classify_of_load_error env st e he]
    · cases hd : env.decodeOk with
      | false => rw [classify_of_decode_false env st m he hd]
      | true =>
          cases ht : env.tfOk with
          | false => rw [classify_of_tf_false env st m he hd ht]
          | true =>
              rcases hq : env.predict (inputExpr env) with u | v
              · cases u
                rw [classify_of_predict_error env st m he hd ht hq]
              · rw [hq] at hp
                simp [exOk] at hp

/-- C1 witness: before any successful load (empty cache), with the
runtime permanently unavailable, the call returns exactly the fallback. -/
theorem classify_fallback_on_any_failure_witness :
    pipelineFails envNoRuntime none ∧
      (classifyImage envNoRuntime none).result = fallbackResult :=
  ⟨Or.inl ⟨rfl, rfl⟩,
   classify_fallback_on_any_failure envNoRuntime none (Or.inl ⟨rfl, rfl⟩)⟩

/-- C6: `loadModel` invoked directly on an empty cache propagates
failures: it throws `runtimeUnavailable` if the TFLite library is missing
both at the first check and after the one retry wait, and throws
`fetchFailed` if the runtime is present but the model artifact fetch does
not succeed. -/
theorem loadModel_propagates_failures (env : Env) :
    (env.tfliteNow = false → env.tfliteAfterWait = false →
      (loadModel env none).out = .error .runtimeUnavailable) ∧
    ((env.tfliteNow || env.tfliteAfterWait) = true → env.fetchOk = false →
      (loadModel env none).out = .error .fetchFailed) := by
  constructor
  · intro h1 h2
    simp [loadModel, h1, h2]
  · intro h1 h2
    simp [loadModel, h1, h2]

/-- C6 witness: a concrete environment with the runtime missing yields
`runtimeUnavailable`; one with the runtime present but a failing fetch
yields `fetchFailed`. -/
theorem loadModel_propagates_failures_witness :
    (loadModel envNoRuntime none).out = .error .runtimeUnavailable ∧
      (loadModel envFetchFail none).out = .error .fetchFailed :=
  ⟨(loadModel_propagates_failures envNoRuntime).1 rfl rfl,
   (loadModel_propagates_failures envFetchFail).2 rfl rfl⟩

/-- C5: the model handle is loaded at most once. If the cache is
populated, `loadModel` returns the cached handle immediately with no
fetch and no store; a `classifyImage` call starting from a populated
cache keeps the same handle (no reverse transition, never replaced) and
performs no fetch and no store; and across any two sequential
`classifyImage` calls, a freshly constructed handle is stored at most
once. -/
theorem model_loaded_at_most_once :
    (∀ (env : Env) (m : ℕ), loadModel env (some m) = ⟨.ok m, some m, 0, 0⟩) ∧
    (∀ (env : Env) (m : ℕ), (classifyImage env (some m)).state = some m ∧
      (classifyImage env (some m)).fetches = 0 ∧ (classifyImage env (some m)).stores = 0) ∧
    (∀ (env1 env2 : Env) (st : Option ℕ),
      (classifyImage env1 st).stores +
        (classifyImage env2 (classifyImage env1 st).state).stores ≤ 1) := by
  refine ⟨fun env m => rfl, fun env m => classify_some_trace env m, ?_⟩
  intro env1 env2 st
  cases st with
  | some m =>
      obtain ⟨hs1, _, hst1⟩ := classify_some_trace env1 m
      rw [hst1, hs1]
      obtain ⟨_, _, hst2⟩ := classify_some_trace env2 m
      rw [hst2]
      omega
  | none =>
      obtain ⟨hstate, _, hstore⟩ := classify_none_trace env1
      rcases loadModel_none_cases env1 with hc | ⟨hs0, hst0, _, _⟩
      · rw [hstore, hstate, hc]
        show 1 + (classifyImage env2 (some env1.handleVal)).stores ≤ 1
        rw [(classify_some_trace env2 env1.handleVal).2.2]
      · rw [hstore, hst0, hstate, hs0]
        obtain ⟨_, _, hstore2⟩ := classify_none_trace env2
        rw [hstore2]
        rcases loadModel_none_cases env2 with hc2 | ⟨_, hst2, _, _⟩
        · rw [hc2]
          norm_num
        · rw [hst2]
          omega

/-- C7: the per-call input tensor is released exactly as often as it is
allocated — on the success path and on every internal failure path — and
over any sequence of `classifyImage` calls in a fully functional
environment (the instrumented-runtime scenario) the total number of
`dispose` calls equals the number of `classifyImage` calls. -/
theorem tensor_released_on_all_paths :
    (∀ (env : Env) (st : Option ℕ),
      (classifyImage env st).releases = (classifyImage env st).allocs ∧
        (classifyImage env st).allocs ≤ 1) ∧
    (∀ (es : List Env) (st : Option ℕ), (∀ e ∈ es, envFunctional e = true) →
      totalReleases es st = es.length) :=
  ⟨classify_alloc_eq_release, totalReleases_functional⟩

/-- C7 witness: two consecutive calls in a fully functional environment
release exactly two tensors. -/
theorem tensor_released_on_all_paths_witness :
    ((classifyImage (envVec [1]) none).releases = (classifyImage (envVec [1]) none).allocs) ∧
      totalReleases [envVec [1], envVec [1]] none = 2 :=
  ⟨(tensor_released_on_all_paths.1 (envVec [1]) none).1,
   tensor_released_on_all_paths.2 [envVec [1], envVec [1]] none
     (by intro e he; fin_cases he <;> rfl)⟩

/-- C9: the label table is exactly the fixed 4-entry ordered list
`["Coffee Rust", "Maize Streak", "Wheat Rust", "Healthy"]`; in the
embedding it is a constant that no operation writes (both `loadModel` and
`classifyImage` only read it), and every label a `classifyImage` call
returns is drawn from this constant. -/
theorem label_table_fixed :
    labels = ["Coffee Rust", "Maize Streak", "Wheat Rust", "Healthy"] ∧
      labels.length = 4 ∧
      ∀ (env : Env) (st : Option ℕ), (classifyImage env st).result.label ∈ labels :=
  ⟨rfl, rfl, classify_label_mem⟩

/-- Helper: `foldl max` commutes with a `max` in the initial value. -/
lemma foldlMax_max (l : List ℚ) : ∀ a b : ℚ, l.foldl max (max a b) = max a (l.foldl max b) := by
  induction l with
  | nil => intro a b; rfl
  | cons x xs ih =>
      intro a b
      show xs.foldl max (max (max a b) x) = max a (xs.foldl max (max b x))
      rw [max_assoc, ih a (max b x)]

/-- Helper: `jsRound 0 = 0`. -/
lemma jsRound_zero : jsRound 0 = 0 := by
  unfold jsRound
  norm_num

/-- C10: every result `classifyImage` returns — on the fallback path and
on the success path alike — carries a label from the fixed 4-entry table
and a nonnegative integer confidence; and for an anomalous output vector
whose elements are all ≤ 0 the argmax loop leaves index 0 and
`maxProb = 0`, so the result is `{label: "Coffee Rust", confidence: 0}`. -/
theorem classify_result_wellformed :
    (∀ (env : Env) (st : Option ℕ),
      (classifyImage env st).result.label ∈ labels ∧
        0 ≤ (classifyImage env st).result.confidence) ∧
    (∀ (env : Env) (st : Option ℕ) (m : ℕ) (v : List ℚ),
      (loadModel env st).out = .ok m → env.decodeOk = true → env.tfOk = true →
      env.predict (inputExpr env) = .ok v → (∀ y ∈ v, y ≤ 0) →
      (classifyImage env st).result = ⟨"Coffee Rust", 0⟩) := by
  constructor
  · intro env st
    refine ⟨classify_label_mem env st, ?_⟩
    rcases he : (loadModel env st).out with e | m
    · rw [classify_of_load_error env st e he]
      norm_num [fallbackResult]
    · cases hd : env.decodeOk with
      | false =>
          rw [classify_of_decode_false env st m he hd]
          norm_num [fallbackResult]
      | true =>
          cases ht : env.tfOk with
          | false =>
              rw [classify_of_tf_false env st m he hd ht]
              norm_num [fallbackResult]
          | true =>
              rcases hq : env.predict (inputExpr env) with u | v
              · cases u
                rw [classify_of_predict_error env st m he hd ht hq]
                norm_num [fallbackResult]
              · rw [classify_of_predict_ok env st m v he hd ht hq]
                show 0 ≤ jsRound ((scanMax v 0 0 0).1 * 100)
                apply jsRound_nonneg
                rw [scanMax_fst]
                have h0 : (0 : ℚ) ≤ v.foldl max 0 := le_foldlMax v 0
                positivity
  · intro env st m v hl hd ht hp hall
    rw [classify_of_predict_ok env st m v hl hd ht hp]
    rw [scanMax_of_le v 0 0 0 hall]
    show ClassRes.mk (labels.getD (0 % labels.length) "undefined") (jsRound (0 * 100)) = _
    rw [zero_mul, jsRound_zero]
    decide

/-- C10 witness: a successful call whose forward pass returns the
all-nonpositive vector `[-1, -2]` yields `{label: "Coffee Rust",
confidence: 0}` (and its label lies in the table with confidence ≥ 0). -/
theorem classify_result_wellformed_witness :
    (classifyImage (envVec [-1, -2]) none).result.label ∈ labels ∧
      (classifyImage (envVec [-1, -2]) none).result = ⟨"Coffee Rust", 0⟩ :=
  ⟨(classify_result_wellformed.1 (envVec [-1, -2]) none).1,
   classify_result_wellformed.2 (envVec [-1, -2]) none 7 [-1, -2] rfl rfl rfl rfl
     (by decide)⟩

/-- C3 counterexample: the claimed equality
`confidence = round(100 * max(vector))` fails for an output vector whose
maximum is negative. On `[-1]` the loop (whose running maximum starts at
0, not at the first element) leaves `maxProb = 0` and the code returns
confidence 0, whereas `round(100 * max([-1])) = -100`. -/
theorem confidence_counterexample :
    (classifyImage (envVec [-1]) none).result.confidence = 0 ∧
      jsRound (100 * listMax [-1]) = -100 ∧
      (classifyImage (envVec [-1]) none).result.confidence ≠
        jsRound (100 * listMax [-1]) := by
  have h1 : (classifyImage (envVec [-1]) none).result.confidence = 0 := by
    rw [classify_of_predict_ok (envVec [-1]) none 7 [-1] rfl rfl rfl rfl]
    show jsRound ((scanMax [-1] 0 0 0).1 * 100) = 0
    rw [scanMax_of_le [-1] 0 0 0 (by decide)]
    show jsRound (0 * 100) = 0
    rw [zero_mul, jsRound_zero]
  have h2 : jsRound (100 * listMax [-1]) = -100 := by
    have hM : listMax [-1] = -1 := rfl
    rw [hM]
    unfold jsRound
    norm_num
  refine ⟨h1, h2, ?_⟩
  rw [h1, h2]
  decide

/-- C3 amended: for every nonempty output vector whose true maximum is
nonnegative (any probability-like vector), the returned confidence equals
`round(100 * max(vector))`; and when additionally every element lies in
[0, 1], that value lies in [0, 100]. -/
theorem confidence_rounded_max_amended (env : Env) (st : Option ℕ) (m : ℕ) (v : List ℚ)
    (hl : (loadModel env st).out = .ok m) (hd : env.decodeOk = true) (ht : env.tfOk = true)
    (hp : env.predict (inputExpr env) = .ok v) (hne : v ≠ [])
    (hM0 : 0 ≤ listMax v) :
    (classifyImage env st).result.confidence = jsRound (100 * listMax v) ∧
      ((∀ y ∈ v, 0 ≤ y ∧ y ≤ 1) →
        0 ≤ (classifyImage env st).result.confidence ∧
          (classifyImage env st).result.confidence ≤ 100) := by
  obtain ⟨x, xs, rfl⟩ := List.exists_cons_of_ne_nil hne
  have hfold : (x :: xs).foldl max 0 = listMax (x :: xs) := by
    show xs.foldl max (max 0 x) = listMax (x :: xs)
    rw [foldlMax_max xs 0 x]
    exact max_eq_right hM0
  have hconf : (classifyImage env st).result.confidence = jsRound (100 * listMax (x :: xs)) := by
    rw [classify_of_predict_ok env st m (x :: xs) hl hd ht hp]
    show jsRound ((scanMax (x :: xs) 0 0 0).1 * 100) = _
    rw [scanMax_fst, hfold, mul_comm]
  refine ⟨hconf, fun hprob => ?_⟩
  have hM1 : listMax (x :: xs) ≤ 1 := by
    show xs.foldl max x ≤ 1
    exact foldlMax_le xs x (hprob x (List.mem_cons_self x xs)).2
      (fun y hy => (hprob y (List.mem_cons_of_mem x hy)).2)
  rw [hconf]
  exact ⟨jsRound_nonneg _ (mul_nonneg (by norm_num) hM0),
    jsRound_le_hundred _ (by linarith)⟩

/-- C3 witness for the amended claim: the output vector `[1, 0]` (maximum
1, elements in [0, 1]) yields confidence `round(100 * 1)`, inside
[0, 100]. -/
theorem confidence_rounded_max_amended_witness :
    0 ≤ listMax [1, 0] ∧
      (classifyImage (envVec [1, 0]) none).result.confidence = jsRound (100 * listMax [1, 0]) ∧
      0 ≤ (classifyImage (envVec [1, 0]) none).result.confidence ∧
      (classifyImage (envVec [1, 0]) none).result.confidence ≤ 100 :=
  ⟨by decide,
   (confidence_rounded_max_amended (envVec [1, 0]) none 7 [1, 0] rfl rfl rfl rfl
      (by decide) (by decide)).1,
   (confidence_rounded_max_amended (envVec [1, 0]) none 7 [1, 0] rfl rfl rfl rfl
      (by decide) (by decide)).2 (by decide)⟩

/-- C2 counterexample: on the output vector `[-1, 0]` the loop (which
starts its running maximum at 0, not at the first element) returns index
0, label `"Coffee Rust"`, whereas the first-occurrence argmax of the
vector is index 1, whose label is `"Maize Streak"` — so the claimed
equality fails as stated for arbitrary output vectors. -/
theorem argmax_label_counterexample :
    (classifyImage (envVec [-1, 0]) none).result.label = "Coffee Rust" ∧
      labels.getD (firstArgmax [-1, 0] % labels.length) "undefined" = "Maize Streak" ∧
      (classifyImage (envVec [-1, 0]) none).result.label ≠
        labels.getD (firstArgmax [-1, 0] % labels.length) "undefined" := by
  refine ⟨by decide, by decide, by decide⟩

/-- C2 amended: for every output vector whose true maximum is positive
(any probability-like vector with a positive entry), the returned label
equals `labels[argmax(vector) % 4]` with argmax resolving ties to the
lowest index. -/
theorem argmax_label_amended (env : Env) (st : Option ℕ) (m : ℕ) (v : List ℚ)
    (hl : (loadModel env st).out = .ok m) (hd : env.decodeOk = true) (ht : env.tfOk = true)
    (hp : env.predict (inputExpr env) = .ok v) (hpos : 0 < listMax v) :
    (classifyImage env st).result.label =
      labels.getD (firstArgmax v % labels.length) "undefined" := by
  cases v with
  | nil => exact absurd hpos (by norm_num [listMax])
  | cons x xs =>
      have hfold : (x :: xs).foldl max 0 = listMax (x :: xs) := by
        show xs.foldl max (max 0 x) = listMax (x :: xs)
        rw [foldlMax_max xs 0 x]
        exact max_eq_right hpos.le
      have hlt : (0 : ℚ) < (x :: xs).foldl max 0 := by
        rw [hfold]
        exact hpos
      rw [classify_of_predict_ok env st m (x :: xs) hl hd ht hp]
      show labels.getD ((scanMax (x :: xs) 0 0 0).2 % labels.length) "undefined" = _
      rw [scanMax_spec (x :: xs) 0 0 0 hlt]
      simp only [hfold, Nat.zero_add]
      rfl

/-- C2 witness for the amended claim: the vector `[0, 0, 2, 0]` has its
unique maximum at index 2, and the returned label is `labels[2] =
"Wheat Rust"`. -/
theorem argmax_label_amended_witness :
    0 < listMax [0, 0, 2, 0] ∧
      (classifyImage (envVec [0, 0, 2, 0]) none).result.label = "Wheat Rust" :=
  ⟨by decide, by
    rw [argmax_label_amended (envVec [0, 0, 2, 0]) none 7 [0, 0, 2, 0] rfl rfl rfl rfl
      (by decide)]
    decide⟩

/-- C4 counterexample: an empty output vector is not caught as a failure.
The argmax loop leaves `maxIndex = 0` and `maxProb = 0`, so the call
returns `{label: "Coffee Rust", confidence: 0}`, which differs from the
claimed fallback `{label: "Healthy", confidence: 0}`. -/
theorem empty_vector_counterexample :
    (classifyImage (envVec []) none).result = ⟨"Coffee Rust", 0⟩ ∧
      (classifyImage (envVec []) none).result ≠ fallbackResult := by
  have h : (classifyImage (envVec []) none).result = ⟨"Coffee Rust", 0⟩ := by
    rw [classify_of_predict_ok (envVec []) none 7 [] rfl rfl rfl rfl]
    show ClassRes.mk (labels.getD (0 % labels.length) "undefined") (jsRound (0 * 100)) = _
    rw [zero_mul, jsRound_zero]
    decide
  refine ⟨h, ?_⟩
  rw [h]
  decide

/-- C4 amended: if the forward pass yields an empty output vector, the
call does not treat it as a failure; it returns
`{label: "Coffee Rust", confidence: 0}` (index 0 of the label table with
zero confidence), not the `"Healthy"` fallback. -/
theorem empty_vector_amended (env : Env) (st : Option ℕ) (m : ℕ)
    (hl : (loadModel env st).out = .ok m) (hd : env.decodeOk = true) (ht : env.tfOk = true)
    (hp : env.predict (inputExpr env) = .ok []) :
    (classifyImage env st).result = ⟨"Coffee Rust", 0⟩ ∧
      (classifyImage env st).result ≠ fallbackResult := by
  have h : (classifyImage env st).result = ⟨"Coffee Rust", 0⟩ := by
    rw [classify_of_predict_ok env st m [] hl hd ht hp]
    show ClassRes.mk (labels.getD (0 % labels.length) "undefined") (jsRound (0 * 100)) = _
    rw [zero_mul, jsRound_zero]
    decide
  refine ⟨h, ?_⟩
  rw [h]
  decide

/-- C4 witness for the amended claim, at a concrete environment whose
forward pass returns the empty vector. -/
theorem empty_vector_amended_witness :
    (classifyImage (envVec []) none).result = ⟨"Coffee Rust", 0⟩ ∧
      (classifyImage (envVec []) none).result ≠ fallbackResult :=
  empty_vector_amended (envVec []) none 7 rfl rfl rfl rfl

/-- C8: on every call that reaches preprocessing (model loaded, image
decoded, TFJS present), exactly one forward pass runs, and it runs on the
tensor built by resizing the decoded pixels to 224 × 224 with bilinear
interpolation, adding a leading batch dimension of size 1 (shape
`[1, 224, 224, C]`), and normalizing each value by `(value / 127.5) - 1`,
which maps the native range [0, 255] into [-1, 1]. -/
theorem preprocessing_pipeline (env : Env) (st : Option ℕ) (m : ℕ)
    (hl : (loadModel env st).out = .ok m) (hd : env.decodeOk = true) (ht : env.tfOk = true) :
    (classifyImage env st).predicts = 1 ∧
      (classifyImage env st).predictedOn = some (inputExpr env) ∧
      inputExpr env = .subC (.divC (.toFloat (.expandDims
        (.resizeBilinear (.fromPixels env.imgH env.imgW env.imgC) 224 224) 0)) (127.5 : ℚ)) 1 ∧
      (inputExpr env).shape = [1, 224, 224, env.imgC] ∧
      (∀ v : ℚ, (inputExpr env).pointOp v = normalizePixel v) ∧
      (∀ v : ℚ, 0 ≤ v → v ≤ 255 → -1 ≤ normalizePixel v ∧ normalizePixel v ≤ 1) := by
  refine ⟨?_, ?_, rfl, rfl, fun v => rfl, ?_⟩
  · rcases hq : env.predict (inputExpr env) with u | v
    · cases u
      rw [classify_of_predict_error env st m hl hd ht hq]
    · rw [classify_of_predict_ok env st m v hl hd ht hq]
  · rcases hq : env.predict (inputExpr env) with u | v
    · cases u
      rw [classify_of_predict_error env st m hl hd ht hq]
    · rw [classify_of_predict_ok env st m v hl hd ht hq]
  · intro v h0 h255
    unfold normalizePixel
    have hpos : (0 : ℚ) < 127.5 := by norm_num
    constructor
    · have hdiv : (0 : ℚ) ≤ v / 127.5 := div_nonneg h0 hpos.le
      linarith
    · have hdiv : v / 127.5 ≤ 2 := by
        rw [div_le_iff₀ hpos]
        linarith
      linarith

/-- C8 witness: a concrete functional environment with a 3-channel image
performs exactly one forward pass on the 224 × 224, batch-1 tensor. -/
theorem preprocessing_pipeline_witness :
    (classifyImage (envVec [1]) none).predicts = 1 ∧
      (classifyImage (envVec [1]) none).predictedOn = some (inputExpr (envVec [1])) ∧
      (inputExpr (envVec [1])).shape = [1, 224, 224, 3] := by
  obtain ⟨h1, h2, _, h4, _, _⟩ := preprocessing_pipeline (envVec [1]) none 7 rfl rfl rfl
  exact ⟨h1, h2, h4⟩

end AgriGasha
